import Mathlib

/-!
Verification of the recommendation engine of the Movie Recommendation System
(`data_loader.py`, `recommender.py`, `app.py`).

The engine's list-manipulation pipelines are embedded as executable Lean
functions over `Nat`/`Rat`/`String`.  The floating-point numeric kernels
(TruncatedSVD followed by the two cosine-similarity products in
`get_collaborative_recommendations`, lines 10-21 of `recommender.py`) only
produce one real-valued score per pivot-matrix movie row; they are abstracted
as an explicit `scores : Nat → Rat` argument, and everything downstream of
them (lines 24-34) is embedded directly.  Likewise the content-based
recommender receives the precomputed `similarity_matrix` as an argument, as
in the source.  The TF-IDF / linear-kernel construction of that matrix
(`data_loader.py`, lines 41-46) is embedded separately over `ℝ`.
-/

namespace MovieRec

/-- One row of `ratings_df`: `(user_id, movie_id, rating)`.  The `timestamp`
column is never read by the engine and is omitted. -/
structure Rating where
  user_id : Nat
  movie_id : Nat
  rating : Rat
deriving DecidableEq

/-- One row of `movies_df` as the recommenders use it: the `movie_id` key and
the cleaned `title` column. -/
structure Movie where
  movie_id : Nat
  title : String
deriving DecidableEq

/-! ## Reverse title index (`data_loader.py`, line 49)

`indices = pd.Series(movies_df.index, index=movies_df['title']).drop_duplicates()`
builds the list of (title, row position) pairs in catalog order and then
removes entries whose VALUE (the row position) duplicates an earlier value;
`pandas.Series.drop_duplicates` keeps the first occurrence of each value. -/

/-- `drop_duplicates` on a pandas Series: keep the first entry carrying each
value (second component); the index label (first component) is ignored. -/
def dropDupValuesAux (seen : List Nat) : List (String × Nat) → List (String × Nat)
  | [] => []
  | p :: ps =>
    if p.2 ∈ seen then dropDupValuesAux seen ps
    else p :: dropDupValuesAux (p.2 :: seen) ps

/-- Series.drop_duplicates with no prior values seen. -/
def dropDupValues (l : List (String × Nat)) : List (String × Nat) :=
  dropDupValuesAux [] l

/-- The reverse index `indices`: pairs `(title, row)` in catalog order, then
`drop_duplicates` applied to the values. -/
def buildIndices (titles : List String) : List (String × Nat) :=
  dropDupValues (titles.enum.map (fun p => (p.2, p.1)))

/-- Label lookup `indices[title]` on a pandas Series: every entry whose index
label equals `title`, in order.  (`title in indices` is the test that this
list is nonempty.) -/
def titleRows (idx : List (String × Nat)) (t : String) : List Nat :=
  (idx.filter (fun p => p.1 = t)).map (fun p => p.2)

/-- All row positions of `t` in the title column, in order. -/
def positionsOf (t : String) (titles : List String) : List Nat :=
  (titles.enum.filter (fun p => p.2 = t)).map Prod.fst

/-! ## Stable descending sort

Python's `sorted(key=lambda x: x[1], reverse=True)` and pandas
`sort_values(ascending=False)` sort descending by the score component;
`sorted` is stable (ties keep their original relative order).
`List.insertionSort` with the relation below is exactly that sort. -/

/-- Descending-by-score order on `(index, score)` pairs. -/
def rdesc : Nat × Rat → Nat × Rat → Prop := fun x y => y.2 ≤ x.2

instance : DecidableRel rdesc := fun x y => inferInstanceAs (Decidable (y.2 ≤ x.2))

instance : IsTotal (Nat × Rat) rdesc := ⟨fun x y => le_total y.2 x.2⟩

instance : IsTrans (Nat × Rat) rdesc := ⟨fun _ _ _ h1 h2 => le_trans h2 h1⟩

/-! ## Content-based recommender (`recommender.py`, lines 36-58) -/

/-- `get_content_based_recommendations(title, movies_df, similarity_matrix,
indices, num_recommendations)`.  `titles` is the `movies_df['title']` column;
`similarity_matrix` is passed in, row-indexed by catalog position, as in the
source.  `indices[title]` yields a scalar row position exactly when the title
labels a single entry; the embedding takes the first matching entry (the
theorems below only evaluate it where the entry is unique, matching the
scalar-lookup behaviour of the source). -/
def get_content_based_recommendations (title : String) (titles : List String)
    (similarity_matrix : List (List Rat)) (num_recommendations : Nat) : List String :=
  match titleRows (buildIndices titles) title with
  | [] => []
  | idx :: _ =>
    let row := similarity_matrix.getD idx []
    let sim_scores := List.insertionSort rdesc row.enum
    let top := (sim_scores.drop 1).take num_recommendations
    (top.map Prod.fst).map (fun i => titles.getD i "")

/-! ## Collaborative recommender (`recommender.py`, lines 5-34) -/

/-- The `user_id` column of `ratings_df`. -/
def userIds (ratings : List Rating) : List Nat := ratings.map Rating.user_id

/-- Index of the pivot matrix
`ratings_df.pivot(index='movie_id', columns='user_id', values='rating')`:
the distinct movie_ids, sorted ascending (pandas sorts the pivot index). -/
def pivotIndex (ratings : List Rating) : List Nat :=
  List.insertionSort (fun a b => a ≤ b) (ratings.map Rating.movie_id).dedup

/-- `ratings_df[ratings_df['user_id'] == user_id]['movie_id'].unique()`:
the movie_ids already rated by `user`.  (Only membership in this list is ever
used, so the deduplication order is irrelevant.) -/
def ratedBy (ratings : List Rating) (user : Nat) : List Nat :=
  ((ratings.filter (fun r => r.user_id = user)).map Rating.movie_id).dedup

/-- Lines 24-31: build the score Series over the pivot index, sort it
descending (`sort_values(ascending=False)`), drop the movies the user has
already rated, and take the `head k` movie_ids. -/
def collabTopIds (scores : Nat → Rat) (ratings : List Rating) (user k : Nat) :
    List Nat :=
  let series := (pivotIndex ratings).map (fun m => (m, scores m))
  let sorted := List.insertionSort rdesc series
  let kept := sorted.filter (fun p => p.1 ∉ ratedBy ratings user)
  (kept.take k).map Prod.fst

/-- `get_collaborative_recommendations(user_id, ratings_df, movies_df, k)`.
`scores` abstracts the per-movie correlation values of line 21
(`user_movie_corr`, one float per pivot row).  Line 20
(`movie_user_matrix.loc[:, user_id]`) raises `KeyError` when `user_id` has no
column in the pivot matrix, i.e. no rating; the embedding returns `none`
there.  Lines 32-34 select the catalog rows whose movie_id is among the
top ids (`movies_df[movies_df['movie_id'].isin(top_recommendations)]`, which
keeps `movies_df` row order) and return their titles. -/
def get_collaborative_recommendations (scores : Nat → Rat) (ratings : List Rating)
    (movies : List Movie) (user k : Nat) : Option (List String) :=
  if user ∈ userIds ratings then
    some ((movies.filter
      (fun m => m.movie_id ∈ collabTopIds scores ratings user k)).map Movie.title)
  else none

/-! ## Hybrid merge (`app.py`, lines 383-390) -/

/-- `collab_count = int(num_recommendations * (1 - hybrid_weight))`: Python
`int()` truncates toward zero, which is the floor for the nonnegative
products arising from `weight ≤ 1`. -/
def collabCount (k : Nat) (w : Rat) : Nat := (Int.floor ((k : Rat) * (1 - w))).toNat

/-- The spec's stated formula `round(k * (1 - weight))`, for comparison. -/
def specCollabCount (k : Nat) (w : Rat) : Int := round ((k : Rat) * (1 - w))

/-- The append loop of `app.py` lines 388-390: walk the content list and
append each entry not already present in the accumulated list. -/
def dedupAppend (acc : List String) : List String → List String
  | [] => acc
  | x :: xs => if x ∈ acc then dedupAppend acc xs else dedupAppend (acc ++ [x]) xs

/-- Lines 383-390 of `app.py`: slice the two result lists and merge them.
`collab` and `content` are the lists returned by the two sub-recommenders
(each called with `num_recommendations = k`, then sliced). -/
def hybridRecs (collab content : List String) (k : Nat) (w : Rat) : List String :=
  dedupAppend (collab.take (collabCount k w)) (content.take (k - collabCount k w))

/-! ## TF-IDF similarity construction (`data_loader.py`, lines 44-46)

`TfidfVectorizer(stop_words='english')` with its default settings:
tokens are maximal alphanumeric runs of length at least two
(`token_pattern=r"(?u)\b\w\w+\b"`), `smooth_idf=True`, `sublinear_tf=False`,
and crucially `norm='l2'` — every document vector is L2-normalized before it
is returned.  The stop-word filter is omitted from the embedding: the genre
vocabulary of the catalog contains no English stop-word, so the filter
removes nothing on this corpus (spec §4.2 notes the same).
`linear_kernel(tfidf_matrix, tfidf_matrix)` is the pairwise dot product of
the (normalized) document vectors. -/

/-- Split a character stream into maximal alphanumeric runs (`acc` holds the
current run, reversed). -/
def splitTokens (acc : List Char) : List Char → List (List Char)
  | [] => [acc.reverse]
  | c :: cs =>
    if c.isAlphanum then splitTokens (c :: acc) cs
    else acc.reverse :: splitTokens [] cs

/-- sklearn's default tokenizer: alphanumeric runs of length at least 2. -/
def tokenize (s : String) : List String :=
  ((splitTokens [] s.toList).map List.asString).filter (fun w => 2 ≤ w.length)

/-- Term frequency: occurrences of term `t` in document `d`. -/
def tfCount (d t : String) : Nat := (tokenize d).count t

/-- Document frequency: how many documents contain term `t`. -/
def dfCount (docs : List String) (t : String) : Nat :=
  (docs.filter (fun d => t ∈ tokenize d)).length

/-- The fitted vocabulary: every term occurring in the corpus, once.  (sklearn
sorts it; the order never matters below, only that each term appears once.) -/
def vocab (docs : List String) : List String := (docs.map tokenize).flatten.dedup

/-- Smoothed inverse document frequency (`smooth_idf=True`):
`ln((1 + n) / (1 + df)) + 1`. -/
noncomputable def idf (docs : List String) (t : String) : ℝ :=
  Real.log ((1 + (docs.length : ℝ)) / (1 + (dfCount docs t : ℝ))) + 1

/-- The raw (pre-normalization) tf-idf weight of term `t` for document `d`. -/
noncomputable def tfidfRaw (docs : List String) (d t : String) : ℝ :=
  (tfCount d t : ℝ) * idf docs t

/-- Dot product of two term-weight functions over the corpus vocabulary. -/
noncomputable def dotV (docs : List String) (f g : String → ℝ) : ℝ :=
  ((vocab docs).map (fun t => f t * g t)).sum

/-- Euclidean norm of a term-weight function. -/
noncomputable def normV (docs : List String) (f : String → ℝ) : ℝ :=
  Real.sqrt (dotV docs f f)

/-- The vectorizer's output row for document `d`: the raw tf-idf vector
L2-normalized (the default `norm='l2'` step). -/
noncomputable def tfidfVec (docs : List String) (d t : String) : ℝ :=
  tfidfRaw docs d t / normV docs (tfidfRaw docs d)

/-- `similarity_matrix = linear_kernel(tfidf_matrix, tfidf_matrix)`:
pairwise dot products of the vectorizer's output rows. -/
noncomputable def similarityMatrix (docs : List String) (i j : Nat) : ℝ :=
  dotV docs (tfidfVec docs (docs.getD i "")) (tfidfVec docs (docs.getD j ""))

/-- Pairwise dot products of the RAW (unnormalized) tf-idf vectors — the
matrix the spec says the code computes. -/
noncomputable def rawKernelMatrix (docs : List String) (i j : Nat) : ℝ :=
  dotV docs (tfidfRaw docs (docs.getD i "")) (tfidfRaw docs (docs.getD j ""))

/-- The cosine-similarity matrix of the raw tf-idf vectors. -/
noncomputable def cosineMatrix (docs : List String) (i j : Nat) : ℝ :=
  rawKernelMatrix docs i j /
    (normV docs (tfidfRaw docs (docs.getD i "")) *
      normV docs (tfidfRaw docs (docs.getD j "")))

/-! ## Concrete instances used in counterexamples and witnesses -/

/-- Score assignment for the collaborative counterexample: movie 2 scores
highest, movie 3 next, movie 1 lowest. -/
def exScores : Nat → Rat := fun m => if m = 2 then 9 else if m = 1 then 1 else 5

/-- Ratings store: user 1 has rated movie 3; user 2 has rated movies 1, 2
and 3 (so the pivot index is `[1, 2, 3]`). -/
def exRatings : List Rating := [⟨1, 3, 5⟩, ⟨2, 1, 4⟩, ⟨2, 2, 3⟩, ⟨2, 3, 2⟩]

/-- Catalog: movie_id 1 = "A", 2 = "B", 3 = "C", in this row order. -/
def exMovies : List Movie := [⟨1, "A"⟩, ⟨2, "B"⟩, ⟨3, "C"⟩]

/-- Catalog titles for the content-based tie counterexample: rows 0 and 1
("A" and "B") carry identical genre sets. -/
def exTitles : List String := ["A", "B"]

/-- The similarity matrix `load_data` produces when rows 0 and 1 have the
same single genre tag: every pairwise similarity of the two identical
L2-normalized vectors is 1, so row 1 ties its self-similarity with row 0. -/
def exSimTie : List (List Rat) := [[1, 1], [1, 1]]

/-- Three-movie catalog for the C9 boundary counterexample. -/
def exTitles3 : List String := ["A", "B", "C"]

/-- Similarity matrix when rows 0 and 1 share one genre set and row 2 has a
disjoint one (the matrix `load_data` produces for genres
`action / action / comedy`). -/
def exSimTie3 : List (List Rat) := [[1, 1, 0], [1, 1, 0], [0, 0, 1]]

/-- Similarity matrix for two movies with disjoint genre sets (the matrix
`load_data` produces for genres `action / comedy`): self-similarity is the
strict maximum of each row. -/
def exSimDisjoint : List (List Rat) := [[1, 0], [0, 1]]

/-! ## Helper lemmas: the reverse title index -/

theorem dropDupValuesAux_of_nodup (l : List (String × Nat)) :
    ∀ seen : List Nat, (l.map Prod.snd).Nodup → (∀ p ∈ l, p.2 ∉ seen) →
      dropDupValuesAux seen l = l := by
  induction l with
  | nil => intro seen _ _; rfl
  | cons p ps ih =>
    intro seen hnd hseen
    have hp : p.2 ∉ seen := hseen p (List.mem_cons_self p ps)
    rw [List.map_cons, List.nodup_cons] at hnd
    unfold dropDupValuesAux
    rw [if_neg hp, ih (p.2 :: seen) hnd.2]
    intro q hq
    rw [List.mem_cons]
    rintro (h | h)
    · exact hnd.1 (h ▸ List.mem_map_of_mem Prod.snd hq)
    · exact hseen q (List.mem_cons_of_mem p hq) h

theorem buildIndices_eq (titles : List String) :
    buildIndices titles = titles.enum.map (fun p => (p.2, p.1)) := by
  unfold buildIndices dropDupValues
  apply dropDupValuesAux_of_nodup
  · rw [List.map_map]
    have : (Prod.snd ∘ fun p : Nat × String => (p.2, p.1)) = Prod.fst := rfl
    rw [this, List.enum_map_fst]
    exact List.nodup_range titles.length
  · intro p _ h
    exact absurd h (List.not_mem_nil p.2)

theorem titleRows_buildIndices (titles : List String) (t : String) :
    titleRows (buildIndices titles) t = positionsOf t titles := by
  unfold titleRows positionsOf
  rw [buildIndices_eq, List.filter_map, List.map_map]
  have h1 : ((fun p : String × Nat => decide (p.1 = t)) ∘ fun p : Nat × String => (p.2, p.1))
      = fun p : Nat × String => decide (p.2 = t) := rfl
  have h2 : ((fun p : String × Nat => p.2) ∘ fun p : Nat × String => (p.2, p.1))
      = Prod.fst := rfl
  rw [h1, h2]

theorem mem_positionsOf (j : Nat) (t : String) (titles : List String) :
    j ∈ positionsOf t titles ↔ j < titles.length ∧ titles.getD j "" = t := by
  unfold positionsOf
  constructor
  · intro h
    obtain ⟨p, hp, hfst⟩ := List.mem_map.mp h
    obtain ⟨hmem, hsnd⟩ := List.mem_filter.mp hp
    obtain ⟨hlt, hel⟩ := List.getElem?_eq_some.mp (List.mk_mem_enum_iff_getElem?.mp
      (show (p.1, p.2) ∈ titles.enum from hmem))
    refine hfst ▸ ⟨hlt, ?_⟩
    rw [List.getD_eq_getElem titles "" hlt, hel]
    exact of_decide_eq_true hsnd
  · rintro ⟨hlt, hget⟩
    refine List.mem_map.mpr ⟨(j, titles.getD j ""), List.mem_filter.mpr ⟨?_, ?_⟩, rfl⟩
    · exact List.mk_mem_enum_iff_getElem?.mpr
        (by rw [List.getD_eq_getElem titles "" hlt]; exact List.getElem?_eq_getElem hlt)
    · exact decide_eq_true hget

theorem positionsOf_of_not_mem (t : String) (titles : List String)
    (h : t ∉ titles) : positionsOf t titles = [] := by
  unfold positionsOf
  rw [List.filter_eq_nil_iff.mpr, List.map_nil]
  intro p hp
  have hsnd : p.2 ∈ titles := by
    have := List.enum_map_snd titles
    exact this ▸ List.mem_map_of_mem Prod.snd hp
  simp only [decide_eq_true_eq]
  intro heq
  exact h (heq ▸ hsnd)

/-! ## Claim theorems: title index (C4) and content-based lookup miss (C8) -/

/-- C4, counterexample: with catalog titles `["A", "A"]` (two movies sharing
one title) the reverse index keeps BOTH entries — `drop_duplicates` removes
duplicated VALUES (row positions, always distinct), not duplicated title
labels — so the lookup `indices["A"]` yields the two row positions `[0, 1]`,
not a single one. -/
theorem title_index_keeps_duplicate_titles :
    buildIndices ["A", "A"] = [("A", 0), ("A", 1)] ∧
      titleRows (buildIndices ["A", "A"]) "A" = [0, 1] ∧
      (titleRows (buildIndices ["A", "A"]) "A").length ≠ 1 := by
  refine ⟨by decide, by decide, by decide⟩

/-- C4, amended: `drop_duplicates` acts on the Series values (the catalog row
positions), which are pairwise distinct, so it removes nothing: the reverse
index keeps one entry per catalog row, in catalog order, and a title lookup
yields the positions of ALL rows bearing that title (first row first), not a
single position. -/
theorem title_index_lookup_all_rows (titles : List String) (t : String) :
    titleRows (buildIndices titles) t = positionsOf t titles :=
  titleRows_buildIndices titles t

/-- C8: a title absent from the catalog is absent from the reverse index, so
`get_content_based_recommendations` returns `[]` (the guarded early return of
`recommender.py` line 41), and no error is raised. -/
theorem content_missing_title_returns_empty (title : String) (titles : List String)
    (similarity_matrix : List (List Rat)) (k : Nat) (h : title ∉ titles) :
    get_content_based_recommendations title titles similarity_matrix k = [] := by
  unfold get_content_based_recommendations
  rw [titleRows_buildIndices, positionsOf_of_not_mem title titles h]

/-- C8, witness: the spec's own boundary example, a nonexistent title with
`k = 5`. -/
theorem content_missing_title_returns_empty_witness :
    "Nonexistent" ∉ ["Alpha", "Beta", "Gamma"] ∧
      get_content_based_recommendations "Nonexistent" ["Alpha", "Beta", "Gamma"]
        [[1, 0, 0], [0, 1, 0], [0, 0, 1]] 5 = [] :=
  ⟨by decide, content_missing_title_returns_empty "Nonexistent"
    ["Alpha", "Beta", "Gamma"] [[1, 0, 0], [0, 1, 0], [0, 0, 1]] 5 (by decide)⟩

/-! ## Claim theorems: unknown user (C1) -/

/-- C1, counterexample: user 5 has no rating in the store `[⟨1, 1, 5⟩]`, and
`get_collaborative_recommendations` for user 5 signals the lookup failure of
`movie_user_matrix.loc[:, 5]` (a raised `KeyError`, embedded as `none`) — it
does not return the empty list the claim promises. -/
theorem collab_unknown_user_not_empty_list :
    5 ∉ userIds [⟨1, 1, 5⟩] ∧
      get_collaborative_recommendations (fun _ => 0) [⟨1, 1, 5⟩] [⟨1, "A"⟩] 5 3 = none ∧
      get_collaborative_recommendations (fun _ => 0) [⟨1, 1, 5⟩] [⟨1, "A"⟩] 5 3 ≠
        some [] := by
  refine ⟨by decide, by decide, by decide⟩

/-- C1, amended: for a `user_id` with no ratings the pivot matrix has no
column for it and `recommendForUser` raises a lookup error (`KeyError` from
`movie_user_matrix.loc[:, user_id]`) rather than returning a list; the
permissive empty-result contract holds only for the title lookup of the
content-based path. -/
theorem collab_unknown_user_raises (scores : Nat → Rat) (ratings : List Rating)
    (movies : List Movie) (user k : Nat) (h : user ∉ userIds ratings) :
    get_collaborative_recommendations scores ratings movies user k = none := by
  unfold get_collaborative_recommendations
  rw [if_neg h]

/-- C1, witness for the amended theorem. -/
theorem collab_unknown_user_raises_witness :
    7 ∉ userIds [⟨1, 1, 5⟩, ⟨2, 3, 4⟩] ∧
      get_collaborative_recommendations (fun _ => 1) [⟨1, 1, 5⟩, ⟨2, 3, 4⟩]
        [⟨1, "A"⟩, ⟨3, "B"⟩] 7 2 = none :=
  ⟨by decide, collab_unknown_user_raises (fun _ => 1) [⟨1, 1, 5⟩, ⟨2, 3, 4⟩]
    [⟨1, "A"⟩, ⟨3, "B"⟩] 7 2 (by decide)⟩

/-! ## Helper lemmas: the hybrid merge loop -/

theorem dedupAppend_spec (l : List String) :
    ∀ acc : List String, ∃ rest, dedupAppend acc l = acc ++ rest ∧
      rest.Sublist l ∧ rest.Nodup ∧ ∀ x ∈ rest, x ∉ acc := by
  induction l with
  | nil =>
    intro acc
    exact ⟨[], by simp [dedupAppend], List.Sublist.refl [], List.nodup_nil, by simp⟩
  | cons x xs ih =>
    intro acc
    unfold dedupAppend
    by_cases hx : x ∈ acc
    · rw [if_pos hx]
      obtain ⟨rest, heq, hsub, hnd, hnotin⟩ := ih acc
      exact ⟨rest, heq, hsub.cons x, hnd, hnotin⟩
    · rw [if_neg hx]
      obtain ⟨rest, heq, hsub, hnd, hnotin⟩ := ih (acc ++ [x])
      refine ⟨x :: rest, by rw [heq]; simp, hsub.cons₂ x, ?_, ?_⟩
      · rw [List.nodup_cons]
        refine ⟨fun hxr => ?_, hnd⟩
        exact hnotin x hxr (List.mem_append_right acc (List.mem_singleton.mpr rfl))
      · intro y hy
        rw [List.mem_cons] at hy
        rcases hy with h | h
        · exact h ▸ hx
        · intro hyacc
          exact hnotin y h (List.mem_append_left [x] hyacc)

/-! ## Claim theorems: hybrid merge (C3) -/

/-- C3, counterexample: at `k = 3`, `weight = 1/10` the code computes
`collab_count = int(3 * 0.9) = 2` (truncation), while the claim's formula
`round(3 * 0.9) = 3`; consequently only the first TWO collaborative results
are taken, as the concrete merge shows. -/
theorem hybrid_count_truncates_not_rounds :
    collabCount 3 (1 / 10) = 2 ∧ specCollabCount 3 (1 / 10) = 3 ∧
      hybridRecs ["X", "Y", "Z"] ["P"] 3 (1 / 10) = ["X", "Y", "P"] := by
  have h1 : collabCount 3 (1 / 10) = 2 := by
    unfold collabCount
    norm_num
    rfl
  refine ⟨h1, ?_, ?_⟩
  · unfold specCollabCount
    rw [round_eq]
    norm_num
  · unfold hybridRecs
    rw [h1]
    decide

/-- C3, amended: `collaborative_count = int(k * (1 - weight))` — TRUNCATED,
not rounded — and `content_count = k - collaborative_count`; the merge takes
the first `collaborative_count` collaborative results (all of them when the
collaborative list is shorter) and appends the content results in ranked
order, skipping any title already present, so the result length is
`min(collaborative_count, |collab|)` plus the number of unique appended
content results (possibly less than `k`). -/
theorem hybrid_merge_structure (collab content : List String) (k : Nat) (w : Rat)
    (hw0 : 0 ≤ w) (hw1 : w ≤ 1) :
    ∃ rest, hybridRecs collab content k w =
        collab.take (collabCount k w) ++ rest ∧
      rest.Sublist (content.take (k - collabCount k w)) ∧
      rest.Nodup ∧ (∀ x ∈ rest, x ∉ collab.take (collabCount k w)) ∧
      (hybridRecs collab content k w).length =
        min (collabCount k w) collab.length + rest.length ∧
      collabCount k w ≤ k := by
  unfold hybridRecs
  obtain ⟨rest, heq, hsub, hnd, hnotin⟩ :=
    dedupAppend_spec (content.take (k - collabCount k w)) (collab.take (collabCount k w))
  have hck : collabCount k w ≤ k := by
    unfold collabCount
    have h1w : (k : Rat) * (1 - w) ≤ (k : Rat) := by
      have hle : (1 - w) ≤ 1 := by linarith
      calc (k : Rat) * (1 - w) ≤ (k : Rat) * 1 :=
            mul_le_mul_of_nonneg_left hle (by positivity)
        _ = (k : Rat) := mul_one _
    have hfl : Int.floor ((k : Rat) * (1 - w)) ≤ (k : Int) := by
      have hmono := Int.floor_le_floor h1w
      rwa [Int.floor_natCast] at hmono
    exact Int.toNat_le.mpr hfl
  refine ⟨rest, heq, hsub, hnd, hnotin, ?_, hck⟩
  rw [heq, List.length_append, List.length_take]

/-! ## Helper lemmas: the collaborative pipeline -/

theorem mem_pivotIndex {ratings : List Rating} {m : Nat} :
    m ∈ pivotIndex ratings ↔ ∃ r ∈ ratings, r.movie_id = m := by
  unfold pivotIndex
  rw [List.mem_insertionSort, List.mem_dedup, List.mem_map]

theorem mem_ratedBy {ratings : List Rating} {user m : Nat} :
    m ∈ ratedBy ratings user ↔ ∃ r ∈ ratings, r.user_id = user ∧ r.movie_id = m := by
  unfold ratedBy
  rw [List.mem_dedup, List.mem_map]
  constructor
  · rintro ⟨r, hr, rfl⟩
    have hf := List.mem_filter.mp hr
    exact ⟨r, hf.1, of_decide_eq_true hf.2, rfl⟩
  · rintro ⟨r, hr, hu, rfl⟩
    exact ⟨r, List.mem_filter.mpr ⟨hr, decide_eq_true hu⟩, rfl⟩

theorem mem_collabTopIds {scores : Nat → Rat} {ratings : List Rating}
    {user k m : Nat} (h : m ∈ collabTopIds scores ratings user k) :
    m ∈ pivotIndex ratings ∧ m ∉ ratedBy ratings user := by
  simp only [collabTopIds] at h
  obtain ⟨p, hp, rfl⟩ := List.mem_map.mp h
  have hkept := List.take_subset k _ hp
  have hfil := List.mem_filter.mp hkept
  have hseries := (List.mem_insertionSort rdesc).mp hfil.1
  obtain ⟨m, hm, rfl⟩ := List.mem_map.mp hseries
  exact ⟨hm, of_decide_eq_true hfil.2⟩

theorem length_collabTopIds (scores : Nat → Rat) (ratings : List Rating)
    (user k : Nat) : (collabTopIds scores ratings user k).length ≤ k := by
  simp only [collabTopIds]
  rw [List.length_map]
  exact List.length_take_le k _

theorem mem_collab_some {scores : Nat → Rat} {ratings : List Rating}
    {movies : List Movie} {user k : Nat} {l : List String} {t : String}
    (h : get_collaborative_recommendations scores ratings movies user k = some l)
    (ht : t ∈ l) :
    ∃ m ∈ movies, m.title = t ∧ m.movie_id ∈ collabTopIds scores ratings user k := by
  unfold get_collaborative_recommendations at h
  by_cases hu : user ∈ userIds ratings
  · rw [if_pos hu] at h
    injection h with h
    subst h
    obtain ⟨m, hm, rfl⟩ := List.mem_map.mp ht
    have hf := List.mem_filter.mp hm
    exact ⟨m, hf.1, rfl, of_decide_eq_true hf.2⟩
  · rw [if_neg hu] at h
    exact absurd h (by simp)

/-! ## Claim theorems: collaborative output order (C2) -/

/-- C2, counterexample: user 1 (who has rated movie 3) with `k = 2` under a
score assignment ranking movie 2 (title "B") strictly above movie 1 (title
"A").  The top-2 ids in rank order are `[2, 1]`, but the returned list is
`["A", "B"]` — `movies_df[movies_df['movie_id'].isin(top)]` re-enumerates the
catalog in row order — so the output is NOT ordered descending by score
("B", the higher-scoring title, comes second). -/
theorem collab_output_not_rank_ordered :
    get_collaborative_recommendations exScores exRatings exMovies 1 2 =
        some ["A", "B"] ∧
      exScores 1 < exScores 2 := by
  refine ⟨by decide, by decide⟩

/-- C2, amended: for a user with ratings, the returned list consists of the
top-`k`-by-score unrated movies resolved to titles, but in CATALOG ROW order
(it is a sublist of the catalog's title column), not in descending score
order: a title is returned iff some catalog row bears it and that row's
movie_id is among the ranked top-`k` ids. -/
theorem collab_output_catalog_order (scores : Nat → Rat) (ratings : List Rating)
    (movies : List Movie) (user k : Nat) (l : List String)
    (h : get_collaborative_recommendations scores ratings movies user k = some l) :
    l.Sublist (movies.map Movie.title) ∧
      ∀ t, t ∈ l ↔ ∃ m ∈ movies, m.title = t ∧
        m.movie_id ∈ collabTopIds scores ratings user k := by
  unfold get_collaborative_recommendations at h
  by_cases hu : user ∈ userIds ratings
  · rw [if_pos hu] at h
    injection h with h
    subst h
    refine ⟨(List.filter_sublist movies).map Movie.title, fun t => ?_⟩
    rw [List.mem_map]
    constructor
    · rintro ⟨m, hm, rfl⟩
      have hf := List.mem_filter.mp hm
      exact ⟨m, hf.1, rfl, of_decide_eq_true hf.2⟩
    · rintro ⟨m, hm, rfl, hmem⟩
      exact ⟨m, List.mem_filter.mpr ⟨hm, decide_eq_true hmem⟩, rfl⟩
  · rw [if_neg hu] at h
    exact absurd h (by simp)

/-- C2, witness for the amended theorem: the counterexample instance,
instantiated at the sublist conjunct. -/
theorem collab_output_catalog_order_witness :
    List.Sublist ["A", "B"] (exMovies.map Movie.title) :=
  (collab_output_catalog_order exScores exRatings exMovies 1 2 ["A", "B"]
    (by decide)).1

/-! ## Claim theorems: rated movies excluded (C7), only rated movie_ids (C10) -/

/-- C7: for a user with ratings, every title returned by
`get_collaborative_recommendations` resolves some catalog movie whose
movie_id carries NO rating by that user in the store — rated movie_ids are
dropped from the score Series before the top-`k` selection (line 28). -/
theorem collab_excludes_rated (scores : Nat → Rat) (ratings : List Rating)
    (movies : List Movie) (user k : Nat) (l : List String)
    (h : get_collaborative_recommendations scores ratings movies user k = some l) :
    ∀ t ∈ l, ∃ m ∈ movies, m.title = t ∧
      ∀ r ∈ ratings, r.user_id = user → r.movie_id ≠ m.movie_id := by
  intro t ht
  obtain ⟨m, hm, rfl, htop⟩ := mem_collab_some h ht
  refine ⟨m, hm, rfl, fun r hr hru hmid => ?_⟩
  exact (mem_collabTopIds htop).2 (mem_ratedBy.mpr ⟨r, hr, hru, hmid⟩)

/-- C7, witness: user 1 has rated movie 3 ("C"); the returned title "A"
resolves movie 1, unrated by user 1. -/
theorem collab_excludes_rated_witness :
    ∃ m ∈ exMovies, m.title = "A" ∧
      ∀ r ∈ exRatings, r.user_id = 1 → r.movie_id ≠ m.movie_id :=
  collab_excludes_rated exScores exRatings exMovies 1 2 ["A", "B"]
    (by decide) "A" (by decide)

/-- C10 (implicit): every title returned by
`get_collaborative_recommendations` resolves a catalog movie whose movie_id
appears in at least one rating — candidates are drawn from the pivot-matrix
index, which holds exactly the movie_ids occurring in the rating store, so a
catalog movie nobody has rated can never be recommended. -/
theorem collab_only_rated_movie_ids (scores : Nat → Rat) (ratings : List Rating)
    (movies : List Movie) (user k : Nat) (l : List String)
    (h : get_collaborative_recommendations scores ratings movies user k = some l) :
    ∀ t ∈ l, ∃ m ∈ movies, m.title = t ∧ ∃ r ∈ ratings, r.movie_id = m.movie_id := by
  intro t ht
  obtain ⟨m, hm, rfl, htop⟩ := mem_collab_some h ht
  exact ⟨m, hm, rfl, mem_pivotIndex.mp (mem_collabTopIds htop).1⟩

/-- C10, witness: the returned title "B" resolves movie 2, which user 2 has
rated. -/
theorem collab_only_rated_movie_ids_witness :
    ∃ m ∈ exMovies, m.title = "B" ∧ ∃ r ∈ exRatings, r.movie_id = m.movie_id :=
  collab_only_rated_movie_ids exScores exRatings exMovies 1 2 ["A", "B"]
    (by decide) "B" (by decide)

/-! ## Helper lemmas: the stable descending sort under a strict maximum -/

theorem insertionSort_strict_max_cons (l : List (Nat × Rat)) (idx : Nat) (v : Rat)
    (hmem : (idx, v) ∈ l) (hnodup : (l.map Prod.fst).Nodup)
    (hmax : ∀ p ∈ l, p.1 ≠ idx → p.2 < v) :
    ∃ rest, List.insertionSort rdesc l = (idx, v) :: rest := by
  have hperm := List.perm_insertionSort rdesc l
  have hsorted := List.sorted_insertionSort rdesc l
  have hmem2 : (idx, v) ∈ List.insertionSort rdesc l := hperm.mem_iff.mpr hmem
  cases hs : List.insertionSort rdesc l with
  | nil =>
    rw [hs] at hmem2
    exact absurd hmem2 (List.not_mem_nil _)
  | cons hd tl =>
    rw [hs] at hmem2 hsorted hperm
    have hhd : hd = (idx, v) := by
      by_contra hne
      have hhdl : hd ∈ l := hperm.subset (List.mem_cons_self hd tl)
      have htl : (idx, v) ∈ tl := by
        rcases List.mem_cons.mp hmem2 with h | h
        · exact absurd h.symm hne
        · exact h
      have hrel : rdesc hd (idx, v) := List.rel_of_sorted_cons hsorted _ htl
      by_cases hfst : hd.1 = idx
      · exact hne (List.inj_on_of_nodup_map hnodup hhdl hmem hfst)
      · exact absurd hrel (not_le.mpr (hmax hd hhdl hfst))
    exact ⟨tl, by rw [hhd]⟩

/-- The full anatomy of `get_content_based_recommendations` when the query
title occupies a single catalog row `idx` and the query's self-similarity
strictly exceeds every other entry of its row: the stable descending sort
puts the self entry first, the remaining entries carry each other row position
exactly once, and the output is the take-`k` of their titles. -/
theorem content_strict_max_shape (title : String) (titles : List String)
    (sim : List (List Rat)) (k idx : Nat)
    (hpos : positionsOf title titles = [idx])
    (hrow : (sim.getD idx []).length = titles.length)
    (hmax : ∀ j, j < titles.length → j ≠ idx →
      (sim.getD idx []).getD j 0 < (sim.getD idx []).getD idx 0) :
    ∃ rest : List (Nat × Rat), (∀ p ∈ rest, p.1 ≠ idx ∧ p.1 < titles.length) ∧
      rest.length = titles.length - 1 ∧
      (∀ j, j < titles.length → j ≠ idx → j ∈ rest.map Prod.fst) ∧
      get_content_based_recommendations title titles sim k =
        ((rest.take k).map Prod.fst).map (fun i => titles.getD i "") := by
  have hidx : idx < titles.length ∧ titles.getD idx "" = title := by
    have : idx ∈ positionsOf title titles := by rw [hpos]; exact List.mem_singleton.mpr rfl
    exact (mem_positionsOf idx title titles).mp this
  have hidxrow : idx < (sim.getD idx []).length := by rw [hrow]; exact hidx.1
  have hv : (sim.getD idx []).getD idx 0 = (sim.getD idx [])[idx] :=
    List.getD_eq_getElem _ 0 hidxrow
  have hmem : (idx, (sim.getD idx []).getD idx 0) ∈ (sim.getD idx []).enum := by
    rw [hv]
    exact List.mk_mem_enum_iff_getElem?.mpr (List.getElem?_eq_getElem hidxrow)
  have hnodup : ((sim.getD idx []).enum.map Prod.fst).Nodup := by
    rw [List.enum_map_fst]
    exact List.nodup_range _
  have hmax2 : ∀ p ∈ (sim.getD idx []).enum, p.1 ≠ idx →
      p.2 < (sim.getD idx []).getD idx 0 := by
    rw [List.forall_mem_enum]
    intro i hi hne
    have hgd : (sim.getD idx [])[i] = (sim.getD idx []).getD i 0 :=
      (List.getD_eq_getElem _ 0 hi).symm
    rw [hgd]
    exact hmax i (hrow ▸ hi) hne
  obtain ⟨rest, hsort⟩ :=
    insertionSort_strict_max_cons ((sim.getD idx []).enum) idx
      ((sim.getD idx []).getD idx 0) hmem hnodup hmax2
  have hperm : ((idx, (sim.getD idx []).getD idx 0) :: rest).Perm (sim.getD idx []).enum := by
    rw [show (idx, (sim.getD idx []).getD idx 0) :: rest
        = List.insertionSort rdesc (sim.getD idx []).enum from hsort.symm]
    exact List.perm_insertionSort rdesc _
  have hpermfst : (idx :: rest.map Prod.fst).Perm (List.range (sim.getD idx []).length) := by
    have := hperm.map Prod.fst
    rw [List.map_cons, List.enum_map_fst] at this
    exact this
  have hndcons : (idx :: rest.map Prod.fst).Nodup :=
    hpermfst.nodup_iff.mpr (List.nodup_range _)
  have hidnotin : idx ∉ rest.map Prod.fst := (List.nodup_cons.mp hndcons).1
  have hrest : ∀ p ∈ rest, p.1 ≠ idx ∧ p.1 < titles.length := by
    intro p hp
    constructor
    · intro hfst
      exact hidnotin (hfst ▸ List.mem_map_of_mem Prod.fst hp)
    · have hpenum : p ∈ (sim.getD idx []).enum :=
        hperm.subset (List.mem_cons_of_mem _ hp)
      have := List.mk_mem_enum_iff_getElem?.mp (show (p.1, p.2) ∈ _ from hpenum)
      obtain ⟨hlt, _⟩ := List.getElem?_eq_some.mp this
      exact hrow ▸ hlt
  have hlen : rest.length = titles.length - 1 := by
    have h1 := hperm.length_eq
    rw [List.length_cons, List.enum_length, hrow] at h1
    omega
  have hall : ∀ j, j < titles.length → j ≠ idx → j ∈ rest.map Prod.fst := by
    intro j hj hne
    have hjr : j ∈ List.range (sim.getD idx []).length :=
      List.mem_range.mpr (hrow ▸ hj)
    have := hpermfst.mem_iff.mpr hjr
    rcases List.mem_cons.mp this with h | h
    · exact absurd h hne
    · exact h
  refine ⟨rest, hrest, hlen, hall, ?_⟩
  unfold get_content_based_recommendations
  rw [titleRows_buildIndices, hpos]
  simp only [hsort, List.drop_succ_cons, List.drop_zero]

/-! ## Claim theorems: query self-exclusion (C5) -/

/-- C5, counterexample: catalog `["A", "B"]` where both movies carry the same
single genre tag, so `load_data`'s similarity matrix is all ones and row 1
("B") TIES its self-similarity with row 0.  The stable descending sort keeps
row 0 first, `sim_scores[1:k+1]` drops row 0 instead of the query, and
`recommendSimilarTo("B", 5)` returns `["B"]` — the query title itself. -/
theorem content_returns_query_on_tie :
    get_content_based_recommendations "B" exTitles exSimTie 5 = ["B"] ∧
      "B" ∈ get_content_based_recommendations "B" exTitles exSimTie 5 := by
  refine ⟨by decide, by decide⟩

/-- C5, amended: the query title is excluded whenever its catalog row is
unique and its self-similarity STRICTLY exceeds every other entry of its row
(`sim_scores[1:]` drops the first element of the stable descending sort,
which is the self entry exactly in that case); when another movie ties the
self-similarity at an earlier row, the query title can be returned. -/
theorem content_excludes_query_on_strict_max (title : String) (titles : List String)
    (sim : List (List Rat)) (k idx : Nat)
    (hpos : positionsOf title titles = [idx])
    (hrow : (sim.getD idx []).length = titles.length)
    (hmax : ∀ j, j < titles.length → j ≠ idx →
      (sim.getD idx []).getD j 0 < (sim.getD idx []).getD idx 0) :
    title ∉ get_content_based_recommendations title titles sim k := by
  obtain ⟨rest, hrest, _, _, heq⟩ :=
    content_strict_max_shape title titles sim k idx hpos hrow hmax
  rw [heq]
  intro hmem
  obtain ⟨i, hi, hti⟩ := List.mem_map.mp hmem
  obtain ⟨p, hp, rfl⟩ := List.mem_map.mp hi
  have hp2 := hrest p (List.take_subset k rest hp)
  have : p.1 ∈ positionsOf title titles :=
    (mem_positionsOf p.1 title titles).mpr ⟨hp2.2, hti⟩
  rw [hpos] at this
  exact hp2.1 (List.mem_singleton.mp this)

/-- C5, witness for the amended theorem: two movies with disjoint genre sets;
the query "A" (row 0, self-similarity 1, other entry 0) never appears in its
own recommendations. -/
theorem content_excludes_query_on_strict_max_witness :
    "A" ∉ get_content_based_recommendations "A" exTitles exSimDisjoint 1 :=
  content_excludes_query_on_strict_max "A" exTitles exSimDisjoint 1 0
    (by decide) (by decide) (by decide)

/-- C3, witness for the amended theorem: the counterexample instance
`k = 3`, `weight = 1/10`. -/
theorem hybrid_merge_structure_witness :
    ∃ rest : List String, hybridRecs ["X", "Y", "Z"] ["P"] 3 (1 / 10) =
        (["X", "Y", "Z"].take (collabCount 3 (1 / 10))) ++ rest ∧
      rest.Sublist (["P"].take (3 - collabCount 3 (1 / 10))) ∧
      rest.Nodup ∧
      (∀ x ∈ rest, x ∉ ["X", "Y", "Z"].take (collabCount 3 (1 / 10))) ∧
      (hybridRecs ["X", "Y", "Z"] ["P"] 3 (1 / 10)).length =
        min (collabCount 3 (1 / 10)) (["X", "Y", "Z"] : List String).length
          + rest.length ∧
      collabCount 3 (1 / 10) ≤ 3 :=
  hybrid_merge_structure ["X", "Y", "Z"] ["P"] 3 (1 / 10) (by norm_num) (by norm_num)

/-! ## Claim theorems: output length bounds and the large-k boundary (C9) -/

/-- C9, counterexample: with catalog `["A", "B", "C"]` where rows 0 and 1
share a genre set, the query "B" ties its self-similarity with row 0, so for
`k = 5` (which exceeds the 2 eligible movies) the output is `["B", "C"]`:
no error is raised and the length bound holds, but the eligible movie "A" is
NOT returned (the query "B" is returned in its place), refuting "all eligible
movies are returned". -/
theorem content_boundary_misses_eligible :
    get_content_based_recommendations "B" exTitles3 exSimTie3 5 = ["B", "C"] ∧
      exTitles3.length - 1 < 5 ∧ "A" ∈ exTitles3 ∧
      "A" ∉ get_content_based_recommendations "B" exTitles3 exSimTie3 5 := by
  refine ⟨by decide, by decide, by decide, by decide⟩

/-- C9, amended: both recommenders return at most `k` titles (no truncation
error); and when `k ≥ catalog size − 1`, `get_content_based_recommendations`
returns exactly `catalog size − 1` titles, which are all the OTHER catalog
rows exactly when the query row is unique and its self-similarity strictly
dominates its row — under a tie the dropped first element need not be the
query, so "all eligible" holds only under that strict dominance. -/
theorem rec_output_length_bounds :
    (∀ (scores : Nat → Rat) (ratings : List Rating) (movies : List Movie)
        (user k : Nat) (l : List String),
      get_collaborative_recommendations scores ratings movies user k = some l →
      (movies.map Movie.movie_id).Nodup → l.length ≤ k) ∧
    (∀ (title : String) (titles : List String) (sim : List (List Rat)) (k : Nat),
      (get_content_based_recommendations title titles sim k).length ≤ k) ∧
    (∀ (title : String) (titles : List String) (sim : List (List Rat)) (k idx : Nat),
      positionsOf title titles = [idx] →
      (sim.getD idx []).length = titles.length →
      (∀ j, j < titles.length → j ≠ idx →
        (sim.getD idx []).getD j 0 < (sim.getD idx []).getD idx 0) →
      titles.length - 1 ≤ k →
      (get_content_based_recommendations title titles sim k).length
          = titles.length - 1 ∧
        ∀ j, j < titles.length → j ≠ idx →
          titles.getD j "" ∈ get_content_based_recommendations title titles sim k) := by
  refine ⟨?_, ?_, ?_⟩
  · intro scores ratings movies user k l h hnodup
    unfold get_collaborative_recommendations at h
    by_cases hu : user ∈ userIds ratings
    · rw [if_pos hu] at h
      injection h with h
      subst h
      rw [List.length_map]
      have hsub : ∀ x ∈ (movies.filter
          (fun m => m.movie_id ∈ collabTopIds scores ratings user k)).map Movie.movie_id,
          x ∈ collabTopIds scores ratings user k := by
        intro x hx
        obtain ⟨m, hm, rfl⟩ := List.mem_map.mp hx
        exact of_decide_eq_true (List.mem_filter.mp hm).2
      have hnd2 : ((movies.filter
          (fun m => m.movie_id ∈ collabTopIds scores ratings user k)).map
            Movie.movie_id).Nodup :=
        List.Nodup.sublist ((List.filter_sublist movies).map Movie.movie_id) hnodup
      calc (movies.filter
            (fun m => m.movie_id ∈ collabTopIds scores ratings user k)).length
          = ((movies.filter
            (fun m => m.movie_id ∈ collabTopIds scores ratings user k)).map
              Movie.movie_id).length := (List.length_map _ _).symm
        _ = ((movies.filter
            (fun m => m.movie_id ∈ collabTopIds scores ratings user k)).map
              Movie.movie_id).toFinset.card := (List.toFinset_card_of_nodup hnd2).symm
        _ ≤ (collabTopIds scores ratings user k).toFinset.card :=
            Finset.card_le_card (fun x hx =>
              List.mem_toFinset.mpr (hsub x (List.mem_toFinset.mp hx)))
        _ ≤ (collabTopIds scores ratings user k).length := List.toFinset_card_le _
        _ ≤ k := length_collabTopIds scores ratings user k
    · rw [if_neg hu] at h
      exact absurd h (by simp)
  · intro title titles sim k
    unfold get_content_based_recommendations
    cases htr : titleRows (buildIndices titles) title with
    | nil => simp
    | cons i is =>
      simp only [List.length_map]
      exact List.length_take_le _ _
  · intro title titles sim k idx hpos hrow hmax hk
    obtain ⟨rest, _, hlen, hall, heq⟩ :=
      content_strict_max_shape title titles sim k idx hpos hrow hmax
    have htk : rest.take k = rest := List.take_of_length_le (by omega)
    constructor
    · rw [heq, htk, List.length_map, List.length_map, hlen]
    · intro j hj hne
      rw [heq, htk]
      exact List.mem_map_of_mem _ (hall j hj hne)

/-- C9, witness: each conjunct of the amended theorem instantiated — the
collaborative call for user 1 with `k = 2`, and the disjoint-genre content
instance with `k = 1` and with `k = 5 ≥ catalog size − 1`. -/
theorem rec_output_length_bounds_witness :
    (["A", "B"] : List String).length ≤ 2 ∧
      (get_content_based_recommendations "A" exTitles exSimDisjoint 1).length ≤ 1 ∧
      ((get_content_based_recommendations "A" exTitles exSimDisjoint 5).length
          = exTitles.length - 1 ∧
        ∀ j, j < exTitles.length → j ≠ 0 →
          exTitles.getD j "" ∈
            get_content_based_recommendations "A" exTitles exSimDisjoint 5) :=
  ⟨rec_output_length_bounds.1 exScores exRatings exMovies 1 2 ["A", "B"]
      (by decide) (by decide),
    rec_output_length_bounds.2.1 "A" exTitles exSimDisjoint 1,
    rec_output_length_bounds.2.2 "A" exTitles exSimDisjoint 5 0
      (by decide) (by decide) (by decide) (by decide)⟩

/-! ## Claim theorems: the similarity matrix is cosine, not a raw kernel (C6) -/

/-- C6, counterexample: on the corpus `["action", "comedy"]` the diagonal
entry of the code's similarity matrix is `1` (the dot product of the
vectorizer's L2-NORMALIZED rows — `norm='l2'` is `TfidfVectorizer`'s
default), while the raw-kernel entry the claim describes is
`(ln(3/2) + 1)² ≠ 1`: the matrix entries are NOT the raw dot products of
unnormalized tf-idf vectors. -/
theorem similarity_not_raw_kernel :
    similarityMatrix ["action", "comedy"] 0 0 = 1 ∧
      rawKernelMatrix ["action", "comedy"] 0 0 ≠ 1 := by
  have hvocab : vocab ["action", "comedy"] = ["action", "comedy"] := by decide
  have hget0 : (["action", "comedy"] : List String).getD 0 "" = "action" := by decide
  have htfaa : tfCount "action" "action" = 1 := by decide
  have htfac : tfCount "action" "comedy" = 0 := by decide
  have hdfa : dfCount ["action", "comedy"] "action" = 1 := by decide
  have hlen : (["action", "comedy"] : List String).length = 2 := by decide
  have hc1 : 1 < idf ["action", "comedy"] "action" := by
    unfold idf
    rw [hdfa, hlen]
    push_cast
    have hlog : 0 < Real.log ((1 + 2) / (1 + 1)) := Real.log_pos (by norm_num)
    linarith
  have hc0 : 0 < idf ["action", "comedy"] "action" := by linarith
  have hrawa : tfidfRaw ["action", "comedy"] "action" "action"
      = idf ["action", "comedy"] "action" := by
    unfold tfidfRaw
    rw [htfaa]
    push_cast
    ring
  have hrawc : tfidfRaw ["action", "comedy"] "action" "comedy" = 0 := by
    unfold tfidfRaw
    rw [htfac]
    push_cast
    ring
  have hN : normV ["action", "comedy"] (tfidfRaw ["action", "comedy"] "action")
      = idf ["action", "comedy"] "action" := by
    unfold normV dotV
    rw [hvocab]
    simp only [List.map_cons, List.map_nil, List.sum_cons, List.sum_nil, hrawa, hrawc,
      mul_zero, add_zero]
    exact Real.sqrt_mul_self hc0.le
  constructor
  · unfold similarityMatrix dotV tfidfVec
    rw [hvocab, hget0]
    simp only [List.map_cons, List.map_nil, List.sum_cons, List.sum_nil, hrawa, hrawc, hN,
      zero_div, mul_zero, zero_mul, add_zero]
    rw [div_self (ne_of_gt hc0)]
    norm_num
  · unfold rawKernelMatrix dotV
    rw [hvocab, hget0]
    simp only [List.map_cons, List.map_nil, List.sum_cons, List.sum_nil, hrawa, hrawc,
      mul_zero, add_zero]
    nlinarith

/-- C6, amended: `TfidfVectorizer`'s default `norm='l2'` DOES unit-normalize
every document vector, so the `linear_kernel` of the vectorizer's output
equals the cosine-similarity matrix of the raw tf-idf vectors on every
corpus (with Lean's `x / 0 = 0` convention covering all-zero documents). -/
theorem similarity_is_cosine (docs : List String) (i j : Nat) :
    similarityMatrix docs i j = cosineMatrix docs i j := by
  unfold similarityMatrix cosineMatrix rawKernelMatrix tfidfVec dotV
  have hterm : ∀ t : String,
      tfidfRaw docs (docs.getD i "") t / normV docs (tfidfRaw docs (docs.getD i "")) *
        (tfidfRaw docs (docs.getD j "") t / normV docs (tfidfRaw docs (docs.getD j ""))) =
      tfidfRaw docs (docs.getD i "") t * tfidfRaw docs (docs.getD j "") t *
        (normV docs (tfidfRaw docs (docs.getD i "")) *
          normV docs (tfidfRaw docs (docs.getD j "")))⁻¹ := by
    intro t
    rw [div_mul_div_comm, div_eq_mul_inv]
  simp only [hterm]
  rw [List.sum_map_mul_right, ← div_eq_mul_inv]

/-- The all-ones similarity matrix used in the tie counterexamples is
realized by the pipeline: two documents with the same single genre tag have
idf `ln(3/3) + 1 = 1`, identical unit vectors, and pairwise similarity 1. -/
theorem tie_matrix_realized (i j : Nat) (hi : i < 2) (hj : j < 2) :
    similarityMatrix ["action", "action"] i j = 1 := by
  have hget : (["action", "action"] : List String).getD i "" = "action" := by
    interval_cases i <;> decide
  have hget2 : (["action", "action"] : List String).getD j "" = "action" := by
    interval_cases j <;> decide
  have hvocab : vocab ["action", "action"] = ["action"] := by decide
  have htf : tfCount "action" "action" = 1 := by decide
  have hidf : idf ["action", "action"] "action" = 1 := by
    unfold idf
    rw [show dfCount ["action", "action"] "action" = 2 from by decide,
      show (["action", "action"] : List String).length = 2 from by decide]
    push_cast
    rw [show ((1 : ℝ) + 2) / (1 + 2) = 1 by norm_num, Real.log_one]
    norm_num
  have hraw : tfidfRaw ["action", "action"] "action" "action" = 1 := by
    unfold tfidfRaw
    rw [htf, hidf]
    push_cast
    ring
  have hN : normV ["action", "action"] (tfidfRaw ["action", "action"] "action") = 1 := by
    unfold normV dotV
    rw [hvocab]
    simp only [List.map_cons, List.map_nil, List.sum_cons, List.sum_nil, hraw, mul_one,
      add_zero]
    exact Real.sqrt_one
  unfold similarityMatrix dotV tfidfVec
  rw [hvocab, hget, hget2]
  simp only [List.map_cons, List.map_nil, List.sum_cons, List.sum_nil, hraw, hN, add_zero]
  norm_num

end MovieRec
